import Mathlib

/-!
# LEDswarm protocol frame codec — verification development

Shallow embedding of the `ledswarm_protocol` crate's frame layer
(`src/frame/mod.rs`, `src/frame/header.rs`, `src/frame/payload/*.rs`,
`src/frame/error.rs`) and proofs about its builder and wire codec.

Modelling conventions:
* Rust byte buffers (`Vec<u8>`) are `List Nat`; a well-formed buffer holds
  values `< 256`.
* Rust `String` values are represented by their UTF-8 byte content
  (`List Nat`); `utf8Valid` mirrors `core::str::from_utf8` validity, which
  the decode path consults before unwrapping.
* Machine integers are `Nat` with explicit range side conditions where the
  wire format depends on them.
* `f32` fields are carried as their 4-byte little-endian bit pattern
  (a `Nat < 2^32`); the codec treats floats as opaque bit patterns.
* The effectful inputs of `FrameHeader::new` (the `chrono` timestamp and the
  `nanoid!(10)` message id) are passed as explicit parameters.
* `bincode` 1.x legacy configuration is modelled: fixed-width little-endian
  integers, `u64` string lengths, `u32` enum variant tags, `u8` tags for
  `Option` and `bool`, trailing bytes permitted after a successful parse.
* Rust panics (out-of-range slice indexing, `unwrap` on `Err`/`None`) are a
  distinguished `DecodeOutcome.panicked` outcome of the decode routine.
-/

namespace Ledswarm

/-- Byte buffers (`Vec<u8>`): lists of byte values. -/
abbrev Bytes := List Nat

/-- A UTF-8 continuation byte: `0x80 ..= 0xBF`. -/
def utf8Cont (b : Nat) : Prop := 0x80 ≤ b ∧ b ≤ 0xBF

instance (b : Nat) : Decidable (utf8Cont b) := by
  unfold utf8Cont; infer_instance

/-- Validity of a byte sequence as UTF-8, mirroring `core::str::from_utf8`:
one-byte ASCII, two- to four-byte sequences with the standard lead-byte
ranges, rejecting overlong forms, surrogates and values above `U+10FFFF`. -/
def utf8Valid : Bytes → Bool
  | [] => true
  | b :: rest =>
    if b ≤ 0x7F then utf8Valid rest
    else if 0xC2 ≤ b ∧ b ≤ 0xDF then
      match rest with
      | c1 :: rest2 => if utf8Cont c1 then utf8Valid rest2 else false
      | [] => false
    else if b = 0xE0 then
      match rest with
      | c1 :: c2 :: rest2 =>
        if (0xA0 ≤ c1 ∧ c1 ≤ 0xBF) ∧ utf8Cont c2 then utf8Valid rest2 else false
      | _ => false
    else if (0xE1 ≤ b ∧ b ≤ 0xEC) ∨ (0xEE ≤ b ∧ b ≤ 0xEF) then
      match rest with
      | c1 :: c2 :: rest2 =>
        if utf8Cont c1 ∧ utf8Cont c2 then utf8Valid rest2 else false
      | _ => false
    else if b = 0xED then
      match rest with
      | c1 :: c2 :: rest2 =>
        if (0x80 ≤ c1 ∧ c1 ≤ 0x9F) ∧ utf8Cont c2 then utf8Valid rest2 else false
      | _ => false
    else if b = 0xF0 then
      match rest with
      | c1 :: c2 :: c3 :: rest2 =>
        if (0x90 ≤ c1 ∧ c1 ≤ 0xBF) ∧ utf8Cont c2 ∧ utf8Cont c3 then utf8Valid rest2 else false
      | _ => false
    else if 0xF1 ≤ b ∧ b ≤ 0xF3 then
      match rest with
      | c1 :: c2 :: c3 :: rest2 =>
        if utf8Cont c1 ∧ utf8Cont c2 ∧ utf8Cont c3 then utf8Valid rest2 else false
      | _ => false
    else if b = 0xF4 then
      match rest with
      | c1 :: c2 :: c3 :: rest2 =>
        if (0x80 ≤ c1 ∧ c1 ≤ 0x8F) ∧ utf8Cont c2 ∧ utf8Cont c3 then utf8Valid rest2 else false
      | _ => false
    else false

/-- The `[u8; 4]` ranging payload of a frame header. -/
structure RangingBytes where
  b0 : Nat
  b1 : Nat
  b2 : Nat
  b3 : Nat
  deriving DecidableEq, Repr

/-- The four bytes in order, as they appear on the wire. -/
def RangingBytes.toList (r : RangingBytes) : Bytes := [r.b0, r.b1, r.b2, r.b3]

/-- `FrameHeader` from `src/frame/header.rs`, fields in declaration order
(the order `serde` serializes them in). -/
structure FrameHeader where
  timestamp : Bytes
  lifetime : Nat
  message_id : Bytes
  sender_id : Nat
  target_id : Option Nat
  requires_acknowledgement : Bool
  current_tick : Nat
  «universe» : Nat
  ranging_bytes : RangingBytes
  deriving DecidableEq, Repr

/-- `ControllerMessage` from `src/frame/payload/controller.rs`. -/
inductive ControllerMessage where
  | JoinRequest : ControllerMessage
  | JoinResponse (assigned_id : Nat) : ControllerMessage
  deriving DecidableEq, Repr

/-- `ProtocolMessage` from `src/frame/payload/protocol.rs`. -/
inductive ProtocolMessage where
  | Acknowledged (message_id : Bytes) : ProtocolMessage
  | Tick (t : Nat) : ProtocolMessage
  deriving DecidableEq, Repr

/-- `ClientMessage` from `src/frame/payload/mod.rs`. `SetBrightness` carries
the `f32` as its 4-byte little-endian bit pattern. -/
inductive ClientMessage where
  | SetBrightness (bits : Nat) : ClientMessage
  | StartRound (name : Bytes) : ClientMessage
  | EndRound : ClientMessage
  deriving DecidableEq, Repr

/-- `FramePayload` as declared in `src/frame/payload/mod.rs`: the
`InternalMessage` alternative is commented out there, so the declared union
has exactly these four alternatives. -/
inductive FramePayload where
  | ControllerMessage (m : ControllerMessage) : FramePayload
  | ProtocolMessage (m : ProtocolMessage) : FramePayload
  | ClientMessage (m : ClientMessage) : FramePayload
  | Empty : FramePayload
  deriving DecidableEq, Repr

/-- `Frame` from `src/frame/mod.rs`. -/
structure Frame where
  header : FrameHeader
  payload : FramePayload
  deriving DecidableEq, Repr

/-- `InternalMessage` from `src/frame/payload/mod.rs`. The enum is declared
there (and referenced by `Frame::internal_message`), but the corresponding
`FramePayload` alternative is commented out, so no declared payload can hold
one of these. -/
inductive InternalMessage where
  | AccelerometerJoltDelta (bits : Nat) : InternalMessage
  | AccelerometerRaw (x y z : Nat) : InternalMessage
  | ClientMessage (m : ClientMessage) : InternalMessage
  | Frame (f : Frame) : InternalMessage
  deriving DecidableEq, Repr

/-- `FrameError` from `src/frame/error.rs`; the `NoMagicString` text is
carried as its UTF-8 byte content. -/
inductive FrameError where
  | SerializeError : FrameError
  | NoMagicString (s : Bytes) : FrameError
  deriving DecidableEq, Repr

/-- `FrameHeader::new`, with the `chrono::Local::now().to_rfc3339()`
timestamp and the `nanoid!(10)` message id passed in as the environment
inputs they are. -/
def FrameHeader.new (timestamp message_id : Bytes) : FrameHeader where
  timestamp := timestamp
  lifetime := 2
  message_id := message_id
  sender_id := 65535
  target_id := none
  requires_acknowledgement := false
  current_tick := 0
  «universe» := 0
  ranging_bytes := ⟨0, 0, 0, 0⟩

/-- `Frame::new`. -/
def Frame.new (timestamp message_id : Bytes) : Frame where
  header := FrameHeader.new timestamp message_id
  payload := FramePayload.Empty

/-- `Frame::message`. -/
def Frame.message (f : Frame) (msg : ControllerMessage) : Frame :=
  { f with payload := FramePayload.ControllerMessage msg }

/-- `Frame::protocol_message`. -/
def Frame.protocol_message (f : Frame) (protocol_msg : ProtocolMessage) : Frame :=
  { f with payload := FramePayload.ProtocolMessage protocol_msg }

/-- `Frame::client_message`. -/
def Frame.client_message (f : Frame) (msg : ClientMessage) : Frame :=
  { f with payload := FramePayload.ClientMessage msg }

/-- `Frame::lifetime`. -/
def Frame.lifetime (f : Frame) (lifetime : Nat) : Frame :=
  { f with header := { f.header with lifetime := lifetime } }

/-- `Frame::sender_id`. -/
def Frame.sender_id (f : Frame) (id : Nat) : Frame :=
  { f with header := { f.header with sender_id := id } }

/-- `Frame::target_id`. -/
def Frame.target_id (f : Frame) (id : Nat) : Frame :=
  { f with header := { f.header with target_id := some id } }

/-- `Frame::tick`. -/
def Frame.tick (f : Frame) (current_tick : Nat) : Frame :=
  { f with header := { f.header with current_tick := current_tick } }

/-- `Frame::universe`. -/
def Frame.setUniverse (f : Frame) (num : Nat) : Frame :=
  { f with header := { f.header with «universe» := num } }

/-- `Frame::require_confirmation`. -/
def Frame.require_confirmation (f : Frame) : Frame :=
  { f with header := { f.header with requires_acknowledgement := true } }

/-- `Frame::join_request`: the builder chain from `src/frame/mod.rs`. -/
def Frame.join_request (timestamp message_id : Bytes) (tick : Nat) : Frame :=
  ((((Frame.new timestamp message_id).message ControllerMessage.JoinRequest).require_confirmation).target_id
      0).tick tick

/-! ## The bincode 1.x legacy serializer for frames -/

/-- Little-endian fixed-width integer: `w` bytes, low byte first. -/
def serLE : Nat → Nat → Bytes
  | 0, _ => []
  | w + 1, v => v % 256 :: serLE w (v / 256)

/-- A `String`: `u64` byte length, then the UTF-8 content bytes. -/
def serString (s : Bytes) : Bytes := serLE 8 s.length ++ s

/-- An `Option<u16>`: tag byte `0`/`1`, then the value if present. -/
def serOptionU16 : Option Nat → Bytes
  | none => [0]
  | some v => 1 :: serLE 2 v

/-- A `bool`: one byte, `0` or `1`. -/
def serBool : Bool → Bytes
  | false => [0]
  | true => [1]

/-- `ControllerMessage`: `u32` variant tag, then the variant fields. -/
def serController : ControllerMessage → Bytes
  | ControllerMessage.JoinRequest => serLE 4 0
  | ControllerMessage.JoinResponse id => serLE 4 1 ++ serLE 2 id

/-- `ProtocolMessage`: `u32` variant tag, then the variant fields. -/
def serProtocol : ProtocolMessage → Bytes
  | ProtocolMessage.Acknowledged mid => serLE 4 0 ++ serString mid
  | ProtocolMessage.Tick t => serLE 4 1 ++ serLE 2 t

/-- `ClientMessage`: `u32` variant tag, then the variant fields. -/
def serClient : ClientMessage → Bytes
  | ClientMessage.SetBrightness bits => serLE 4 0 ++ serLE 4 bits
  | ClientMessage.StartRound name => serLE 4 1 ++ serString name
  | ClientMessage.EndRound => serLE 4 2

/-- `FramePayload`: `u32` variant tag in declaration order, then the carried
message. -/
def serPayload : FramePayload → Bytes
  | FramePayload.ControllerMessage m => serLE 4 0 ++ serController m
  | FramePayload.ProtocolMessage m => serLE 4 1 ++ serProtocol m
  | FramePayload.ClientMessage m => serLE 4 2 ++ serClient m
  | FramePayload.Empty => serLE 4 3

/-- `FrameHeader`: its fields in declaration order. -/
def serHeader (h : FrameHeader) : Bytes :=
  serString h.timestamp ++
    (serLE 1 h.lifetime ++
      (serString h.message_id ++
        (serLE 2 h.sender_id ++
          (serOptionU16 h.target_id ++
            (serBool h.requires_acknowledgement ++
              (serLE 2 h.current_tick ++
                (serLE 1 h.«universe» ++ h.ranging_bytes.toList)))))))

/-- `bincode::serialize` of a whole `Frame`: header fields, then payload. -/
def serFrame (f : Frame) : Bytes := serHeader f.header ++ serPayload f.payload

/-- The literal ASCII bytes of the magic marker. -/
def magicBytes : Bytes := [76, 69, 68, 115, 119, 97, 114, 109]

/-- `impl From<Frame> for Vec<u8>`: magic marker, serialized frame body,
then the header's ranging bytes copied verbatim as the trailer. -/
def Frame.toBytes (packet : Frame) : Bytes :=
  magicBytes ++ (serFrame packet ++ packet.header.ranging_bytes.toList)

/-! ## The bincode 1.x legacy deserializer -/

/-- Read a `w`-byte little-endian integer off the front of the input. -/
def readLE : Nat → Bytes → Option (Nat × Bytes)
  | 0, l => some (0, l)
  | _ + 1, [] => none
  | w + 1, b :: r =>
    match readLE w r with
    | some (v, rest) => some (b + 256 * v, rest)
    | none => none

/-- Read exactly `n` raw bytes off the front of the input. -/
def readBytes (n : Nat) (l : Bytes) : Option (Bytes × Bytes) :=
  if n ≤ l.length then some (l.take n, l.drop n) else none

/-- Read a `String`: `u64` length, content bytes, UTF-8 check (bincode
validates with `from_utf8` and errors on invalid content). -/
def readString (l : Bytes) : Option (Bytes × Bytes) :=
  match readLE 8 l with
  | some (n, l1) =>
    match readBytes n l1 with
    | some (s, l2) => if utf8Valid s then some (s, l2) else none
    | none => none
  | none => none

/-- Read a `bool`: one byte, only `0` and `1` are accepted. -/
def readBool : Bytes → Option (Bool × Bytes)
  | 0 :: r => some (false, r)
  | 1 :: r => some (true, r)
  | _ => none

/-- Read an `Option<u16>`: tag byte `0`/`1`, only those accepted. -/
def readOptionU16 : Bytes → Option (Option Nat × Bytes)
  | 0 :: r => some (none, r)
  | 1 :: r =>
    match readLE 2 r with
    | some (v, rest) => some (some v, rest)
    | none => none
  | _ => none

/-- Read a `ControllerMessage`: `u32` tag, then the variant fields;
out-of-range tags are rejected. -/
def readController (l : Bytes) : Option (ControllerMessage × Bytes) :=
  match readLE 4 l with
  | some (0, r) => some (ControllerMessage.JoinRequest, r)
  | some (1, r) =>
    match readLE 2 r with
    | some (v, rest) => some (ControllerMessage.JoinResponse v, rest)
    | none => none
  | some _ => none
  | none => none

/-- Read a `ProtocolMessage`. -/
def readProtocol (l : Bytes) : Option (ProtocolMessage × Bytes) :=
  match readLE 4 l with
  | some (0, r) =>
    match readString r with
    | some (mid, rest) => some (ProtocolMessage.Acknowledged mid, rest)
    | none => none
  | some (1, r) =>
    match readLE 2 r with
    | some (v, rest) => some (ProtocolMessage.Tick v, rest)
    | none => none
  | some _ => none
  | none => none

/-- Read a `ClientMessage`. -/
def readClient (l : Bytes) : Option (ClientMessage × Bytes) :=
  match readLE 4 l with
  | some (0, r) =>
    match readLE 4 r with
    | some (bits, rest) => some (ClientMessage.SetBrightness bits, rest)
    | none => none
  | some (1, r) =>
    match readString r with
    | some (name, rest) => some (ClientMessage.StartRound name, rest)
    | none => none
  | some (2, r) => some (ClientMessage.EndRound, r)
  | some _ => none
  | none => none

/-- Read a `FramePayload`: `u32` variant tag in declaration order. -/
def readPayload (l : Bytes) : Option (FramePayload × Bytes) :=
  match readLE 4 l with
  | some (0, r) =>
    match readController r with
    | some (m, rest) => some (FramePayload.ControllerMessage m, rest)
    | none => none
  | some (1, r) =>
    match readProtocol r with
    | some (m, rest) => some (FramePayload.ProtocolMessage m, rest)
    | none => none
  | some (2, r) =>
    match readClient r with
    | some (m, rest) => some (FramePayload.ClientMessage m, rest)
    | none => none
  | some (3, r) => some (FramePayload.Empty, r)
  | some _ => none
  | none => none

/-- Read a `FrameHeader`: its fields in declaration order. -/
def readHeader (l : Bytes) : Option (FrameHeader × Bytes) :=
  match readString l with
  | some (ts, l1) =>
    match readLE 1 l1 with
    | some (lt, l2) =>
      match readString l2 with
      | some (mid, l3) =>
        match readLE 2 l3 with
        | some (sid, l4) =>
          match readOptionU16 l4 with
          | some (tid, l5) =>
            match readBool l5 with
            | some (ack, l6) =>
              match readLE 2 l6 with
              | some (tick, l7) =>
                match readLE 1 l7 with
                | some (uni, l8) =>
                  match readBytes 4 l8 with
                  | some ([r0, r1, r2, r3], l9) =>
                    some (⟨ts, lt, mid, sid, tid, ack, tick, uni, ⟨r0, r1, r2, r3⟩⟩, l9)
                  | some (_, _) => none
                  | none => none
                | none => none
              | none => none
            | none => none
          | none => none
        | none => none
      | none => none
    | none => none
  | none => none

/-- `bincode::deserialize::<Frame>`: header, then payload; trailing bytes
are returned unconsumed (the legacy entry point permits them). -/
def parseFrame (l : Bytes) : Option (Frame × Bytes) :=
  match readHeader l with
  | some (h, l1) =>
    match readPayload l1 with
    | some (p, l2) => some (⟨h, p⟩, l2)
    | none => none
  | none => none

/-- Outcome of `TryFrom<Vec<u8>> for Frame`, with Rust panics (slice range
faults and `unwrap` on invalid UTF-8) as a distinguished outcome. -/
inductive DecodeOutcome where
  | ok (f : Frame) : DecodeOutcome
  | err (e : FrameError) : DecodeOutcome
  | panicked : DecodeOutcome
  deriving DecidableEq, Repr

/-- `impl TryFrom<Vec<u8>> for Frame`, line by line:
1. `&vec[0 .. 8]` faults when the buffer is shorter than 8 bytes;
2. `core::str::from_utf8(..).unwrap()` faults when those bytes are not
   valid UTF-8;
3. on the magic match, `&vec[8 .. vec.len() - 4]` faults when the buffer is
   shorter than 12 bytes; otherwise the body is deserialized, and on success
   the header's ranging bytes are overwritten with the last four buffer
   bytes;
4. on a magic mismatch, `String::from_utf8(vec[0 .. 7].to_vec()).unwrap()`
   faults when the first seven bytes are not valid UTF-8, and otherwise the
   error carries those seven bytes as text. -/
def Frame.tryFrom (vec : Bytes) : DecodeOutcome :=
  if vec.length < 8 then DecodeOutcome.panicked
  else if utf8Valid (vec.take 8) = false then DecodeOutcome.panicked
  else if vec.take 8 = magicBytes then
    if vec.length < 12 then DecodeOutcome.panicked
    else
      match parseFrame ((vec.drop 8).take (vec.length - 12)) with
      | some (p, _) =>
        DecodeOutcome.ok
          { p with
            header :=
              { p.header with
                ranging_bytes :=
                  ⟨vec.getD (vec.length - 4) 0, vec.getD (vec.length - 3) 0,
                    vec.getD (vec.length - 2) 0, vec.getD (vec.length - 1) 0⟩ } }
      | none => DecodeOutcome.err FrameError.SerializeError
  else if utf8Valid (vec.take 7) = false then DecodeOutcome.panicked
  else DecodeOutcome.err (FrameError.NoMagicString (vec.take 7))

/-! ## Well-formedness: the values a real Rust `Frame` can hold -/

/-- A Rust `String` in the model: valid UTF-8 content whose length fits the
`u64` wire length. -/
def strWF (s : Bytes) : Prop := utf8Valid s = true ∧ s.length < 18446744073709551616

instance (s : Bytes) : Decidable (strWF s) := by
  unfold strWF; infer_instance

/-- The `[u8; 4]` invariant: four byte values. -/
def RangingBytes.WF (r : RangingBytes) : Prop :=
  r.b0 < 256 ∧ r.b1 < 256 ∧ r.b2 < 256 ∧ r.b3 < 256

instance (r : RangingBytes) : Decidable r.WF := by
  unfold RangingBytes.WF; infer_instance

/-- Range invariants of a Rust `FrameHeader` value. -/
def FrameHeader.WF (h : FrameHeader) : Prop :=
  strWF h.timestamp ∧ h.lifetime < 256 ∧ strWF h.message_id ∧
    h.sender_id < 65536 ∧ h.target_id.getD 0 < 65536 ∧
    h.current_tick < 65536 ∧ h.«universe» < 256 ∧ h.ranging_bytes.WF

instance (h : FrameHeader) : Decidable h.WF := by
  unfold FrameHeader.WF; infer_instance

/-- Range invariants of a Rust `FramePayload` value. -/
def FramePayload.WF : FramePayload → Prop
  | FramePayload.ControllerMessage ControllerMessage.JoinRequest => True
  | FramePayload.ControllerMessage (ControllerMessage.JoinResponse id) => id < 65536
  | FramePayload.ProtocolMessage (ProtocolMessage.Acknowledged mid) => strWF mid
  | FramePayload.ProtocolMessage (ProtocolMessage.Tick t) => t < 65536
  | FramePayload.ClientMessage (ClientMessage.SetBrightness bits) => bits < 4294967296
  | FramePayload.ClientMessage (ClientMessage.StartRound name) => strWF name
  | FramePayload.ClientMessage ClientMessage.EndRound => True
  | FramePayload.Empty => True

instance (p : FramePayload) : Decidable p.WF := by
  unfold FramePayload.WF
  rcases p with m | m | m | _
  · rcases m with _ | id <;> infer_instance
  · rcases m with mid | t <;> infer_instance
  · rcases m with bits | name | _ <;> infer_instance
  · infer_instance

/-- Range invariants of a Rust `Frame` value. -/
def Frame.WF (f : Frame) : Prop := f.header.WF ∧ f.payload.WF

instance (f : Frame) : Decidable f.WF := by
  unfold Frame.WF; infer_instance

/-! ## Round trip: every reader consumes exactly what its serializer wrote -/

theorem serLE_length (w v : Nat) : (serLE w v).length = w := by
  induction w generalizing v with
  | zero => rfl
  | succ w ih => simp [serLE, ih]

theorem readLE_ser (w v : Nat) (r : Bytes) (hv : v < 256 ^ w) :
    readLE w (serLE w v ++ r) = some (v, r) := by
  induction w generalizing v with
  | zero =>
    have : v = 0 := by simpa using hv
    subst this
    rfl
  | succ w ih =>
    have hdiv : v / 256 < 256 ^ w := by
      rw [Nat.div_lt_iff_lt_mul (by norm_num)]
      calc v < 256 ^ (w + 1) := hv
        _ = 256 ^ w * 256 := by rw [pow_succ]
    simp [serLE, readLE, ih (v / 256) hdiv, Nat.mod_add_div]

theorem readBytes_exact (s r : Bytes) : readBytes s.length (s ++ r) = some (s, r) := by
  simp [readBytes, List.take_left, List.drop_left]

theorem readString_ser (s : Bytes) (r : Bytes) (hs : strWF s) :
    readString (serString s ++ r) = some (s, r) := by
  obtain ⟨hv, hl⟩ := hs
  have h8 : s.length < 256 ^ 8 := by norm_num [strWF] at hl ⊢; omega
  simp [serString, readString, List.append_assoc, readLE_ser 8 s.length (s ++ r) h8,
    readBytes_exact, hv]

theorem readBool_ser (b : Bool) (r : Bytes) : readBool (serBool b ++ r) = some (b, r) := by
  cases b <;> rfl

theorem readOptionU16_ser (o : Option Nat) (r : Bytes) (ho : o.getD 0 < 65536) :
    readOptionU16 (serOptionU16 o ++ r) = some (o, r) := by
  cases o with
  | none => rfl
  | some v =>
    have hv : v < 256 ^ 2 := by simpa using ho
    simp [serOptionU16, readOptionU16, readLE_ser 2 v r hv]

theorem readRanging (rb : RangingBytes) (r : Bytes) :
    readBytes 4 (rb.toList ++ r) = some (rb.toList, r) := by
  simpa using readBytes_exact rb.toList r

theorem readController_ser (m : ControllerMessage) (r : Bytes)
    (hm : (FramePayload.ControllerMessage m).WF) :
    readController (serController m ++ r) = some (m, r) := by
  cases m with
  | JoinRequest =>
    simp [serController, readController, readLE_ser 4 0 r (by norm_num)]
  | JoinResponse id =>
    have hid : id < 256 ^ 2 := by simpa [FramePayload.WF] using hm
    simp [serController, readController, List.append_assoc,
      readLE_ser 4 1 _ (by norm_num), readLE_ser 2 id r hid]

theorem readProtocol_ser (m : ProtocolMessage) (r : Bytes)
    (hm : (FramePayload.ProtocolMessage m).WF) :
    readProtocol (serProtocol m ++ r) = some (m, r) := by
  cases m with
  | Acknowledged mid =>
    have hmid : strWF mid := by simpa [FramePayload.WF] using hm
    simp [serProtocol, readProtocol, List.append_assoc,
      readLE_ser 4 0 _ (by norm_num), readString_ser mid r hmid]
  | Tick t =>
    have ht : t < 256 ^ 2 := by simpa [FramePayload.WF] using hm
    simp [serProtocol, readProtocol, List.append_assoc,
      readLE_ser 4 1 _ (by norm_num), readLE_ser 2 t r ht]

theorem readClient_ser (m : ClientMessage) (r : Bytes)
    (hm : (FramePayload.ClientMessage m).WF) :
    readClient (serClient m ++ r) = some (m, r) := by
  cases m with
  | SetBrightness bits =>
    have hb : bits < 256 ^ 4 := by simpa [FramePayload.WF] using hm
    simp [serClient, readClient, List.append_assoc,
      readLE_ser 4 0 _ (by norm_num), readLE_ser 4 bits r hb]
  | StartRound name =>
    have hn : strWF name := by simpa [FramePayload.WF] using hm
    simp [serClient, readClient, List.append_assoc,
      readLE_ser 4 1 _ (by norm_num), readString_ser name r hn]
  | EndRound =>
    simp [serClient, readClient, readLE_ser 4 2 r (by norm_num)]

theorem readPayload_ser (p : FramePayload) (r : Bytes) (hp : p.WF) :
    readPayload (serPayload p ++ r) = some (p, r) := by
  cases p with
  | ControllerMessage m =>
    simp [serPayload, readPayload, List.append_assoc,
      readLE_ser 4 0 _ (by norm_num), readController_ser m r hp]
  | ProtocolMessage m =>
    simp [serPayload, readPayload, List.append_assoc,
      readLE_ser 4 1 _ (by norm_num), readProtocol_ser m r hp]
  | ClientMessage m =>
    simp [serPayload, readPayload, List.append_assoc,
      readLE_ser 4 2 _ (by norm_num), readClient_ser m r hp]
  | Empty =>
    simp [serPayload, readPayload, readLE_ser 4 3 r (by norm_num)]

theorem readHeader_ser (h : FrameHeader) (r : Bytes) (hw : h.WF) :
    readHeader (serHeader h ++ r) = some (h, r) := by
  obtain ⟨hts, hlt, hmid, hsid, htid, htick, huni, hrng⟩ := hw
  have hlt' : h.lifetime < 256 ^ 1 := by simpa using hlt
  have hsid' : h.sender_id < 256 ^ 2 := by simpa using hsid
  have htick' : h.current_tick < 256 ^ 2 := by simpa using htick
  have huni' : h.«universe» < 256 ^ 1 := by simpa using huni
  simp only [serHeader, List.append_assoc, readHeader,
    readString_ser h.timestamp _ hts, readLE_ser 1 h.lifetime _ hlt',
    readString_ser h.message_id _ hmid, readLE_ser 2 h.sender_id _ hsid',
    readOptionU16_ser h.target_id _ htid,
    readBool_ser h.requires_acknowledgement,
    readLE_ser 2 h.current_tick _ htick', readLE_ser 1 h.«universe» _ huni',
    readRanging h.ranging_bytes r]
  rfl

theorem parseFrame_ser (f : Frame) (r : Bytes) (hw : f.WF) :
    parseFrame (serFrame f ++ r) = some (f, r) := by
  obtain ⟨hh, hp⟩ := hw
  simp only [serFrame, List.append_assoc, parseFrame,
    readHeader_ser f.header _ hh, readPayload_ser f.payload r hp]

/-! ## Decoding an encoded frame -/

theorem getD_last_four (l t : Bytes) (a b c d : Nat) (ht : t = [a, b, c, d]) :
    (l ++ t).getD ((l ++ t).length - 4) 0 = a ∧
      (l ++ t).getD ((l ++ t).length - 3) 0 = b ∧
      (l ++ t).getD ((l ++ t).length - 2) 0 = c ∧
      (l ++ t).getD ((l ++ t).length - 1) 0 = d := by
  subst ht
  have hl : (l ++ [a, b, c, d]).length = l.length + 4 := by simp
  refine ⟨?_, ?_, ?_, ?_⟩ <;> rw [hl, List.getD_append_right _ _ _ _ (by omega)]
  · have h0 : l.length + 4 - 4 - l.length = 0 := by omega
    rw [h0]; rfl
  · have h1 : l.length + 4 - 3 - l.length = 1 := by omega
    rw [h1]; rfl
  · have h2 : l.length + 4 - 2 - l.length = 2 := by omega
    rw [h2]; rfl
  · have h3 : l.length + 4 - 1 - l.length = 3 := by omega
    rw [h3]; rfl

theorem magicBytes_utf8Valid : utf8Valid magicBytes = true := by decide

/-- Round trip: decoding the byte buffer produced by encoding a well-formed
frame succeeds and returns that frame unchanged — the trailer that decode
trusts for the ranging bytes is the one encode copied out of the very same
header. -/
theorem tryFrom_toBytes (f : Frame) (hw : f.WF) :
    Frame.tryFrom (Frame.toBytes f) = DecodeOutcome.ok f := by
  have hmlen : magicBytes.length = 8 := rfl
  have hform : Frame.toBytes f =
      (magicBytes ++ serFrame f) ++ f.header.ranging_bytes.toList := by
    rw [Frame.toBytes, List.append_assoc]
  have hlen : (Frame.toBytes f).length = 8 + ((serFrame f).length + 4) := by
    simp [Frame.toBytes, RangingBytes.toList, magicBytes]
    omega
  have htake : (Frame.toBytes f).take 8 = magicBytes := by
    rw [Frame.toBytes]; exact List.take_left' hmlen
  have hdrop : (Frame.toBytes f).drop 8 =
      serFrame f ++ f.header.ranging_bytes.toList := by
    rw [Frame.toBytes]; exact List.drop_left' hmlen
  have hbody : ((Frame.toBytes f).drop 8).take ((Frame.toBytes f).length - 12) =
      serFrame f := by
    rw [hdrop, hlen]
    have he : 8 + ((serFrame f).length + 4) - 12 = (serFrame f).length := by omega
    rw [he]
    exact List.take_left' rfl
  have hparse : parseFrame (serFrame f) = some (f, []) := by
    have h := parseFrame_ser f [] hw
    rwa [List.append_nil] at h
  obtain ⟨hg0, hg1, hg2, hg3⟩ :=
    getD_last_four (magicBytes ++ serFrame f) f.header.ranging_bytes.toList
      f.header.ranging_bytes.b0 f.header.ranging_bytes.b1
      f.header.ranging_bytes.b2 f.header.ranging_bytes.b3 rfl
  rw [← hform] at hg0 hg1 hg2 hg3
  rw [Frame.tryFrom, if_neg (by omega), htake, if_neg (by decide), if_pos rfl,
    if_neg (by omega), hbody, hparse]
  simp only [hg0, hg1, hg2, hg3]

/-! ## Stability: a successful parse re-parses its consumed prefix

A reader is stable when any successful parse splits its input into a
consumed prefix and the returned tail, and re-reading that prefix in front
of any other tail returns the same value with the new tail. Together with
completeness this yields that no strict prefix of a serialized value
parses — the truncation half of the corruption-detection analysis. -/

def Stable {α : Type} (read : Bytes → Option (α × Bytes)) : Prop :=
  ∀ l x rest, read l = some (x, rest) →
    ∃ c, l = c ++ rest ∧ ∀ r', read (c ++ r') = some (x, r')

theorem stable_readLE (w : Nat) : Stable (readLE w) := by
  induction w with
  | zero =>
    intro l x rest h
    simp only [readLE, Option.some.injEq, Prod.mk.injEq] at h
    obtain ⟨hx, hrest⟩ := h
    exact ⟨[], by simp [hrest], fun r' => by simp [readLE, hx]⟩
  | succ w ih =>
    intro l x rest h
    cases l with
    | nil => simp [readLE] at h
    | cons b r =>
      cases hrec : readLE w r with
      | none => simp [readLE, hrec] at h
      | some p =>
        obtain ⟨v, rest0⟩ := p
        simp only [readLE, hrec, Option.some.injEq, Prod.mk.injEq] at h
        obtain ⟨hx, hrest⟩ := h
        obtain ⟨c0, hdec, hrep⟩ := ih r v rest0 hrec
        refine ⟨b :: c0, by simp [hdec, hrest], fun r' => ?_⟩
        simp only [List.cons_append, readLE, List.append_eq, hrep r', ← hx]

theorem stable_readBytes (n : Nat) : Stable (readBytes n) := by
  intro l x rest h
  rw [readBytes] at h
  split at h
  · rename_i hle
    simp only [Option.some.injEq, Prod.mk.injEq] at h
    obtain ⟨hx, hrest⟩ := h
    refine ⟨l.take n, by rw [← hrest, List.take_append_drop], fun r' => ?_⟩
    have hlt : (l.take n).length = n := by
      rw [List.length_take]; omega
    rw [readBytes, if_pos (by simp [hlt]), List.take_left' hlt, List.drop_left' hlt, hx]
  · exact absurd h (by simp)

theorem stable_readString : Stable readString := by
  intro l x rest h
  rw [readString] at h
  cases h8 : readLE 8 l with
  | none => simp [h8] at h
  | some p =>
    obtain ⟨n, l1⟩ := p
    cases hb : readBytes n l1 with
    | none => simp [h8, hb] at h
    | some q =>
      obtain ⟨s, l2⟩ := q
      simp only [h8, hb] at h
      split at h
      · rename_i hutf
        simp only [Option.some.injEq, Prod.mk.injEq] at h
        obtain ⟨hx, hrest⟩ := h
        obtain ⟨c1, hd1, hr1⟩ := stable_readLE 8 l n l1 h8
        obtain ⟨c2, hd2, hr2⟩ := stable_readBytes n l1 s l2 hb
        refine ⟨c1 ++ c2, ?_, fun r' => ?_⟩
        · rw [hd1, hd2, ← hrest, List.append_assoc]
        · simp only [List.append_assoc, readString, List.append_eq, hr1, hr2, hutf, if_true, hx]
          rw [if_pos (hx ▸ hutf)]
      · exact absurd h (by simp)

theorem stable_readBool : Stable readBool := by
  intro l x rest h
  match l with
  | [] => simp [readBool] at h
  | 0 :: r =>
    simp only [readBool, Option.some.injEq, Prod.mk.injEq] at h
    obtain ⟨hx, hrest⟩ := h
    exact ⟨[0], by simp [hrest], fun r' => by simp [readBool, ← hx]⟩
  | 1 :: r =>
    simp only [readBool, Option.some.injEq, Prod.mk.injEq] at h
    obtain ⟨hx, hrest⟩ := h
    exact ⟨[1], by simp [hrest], fun r' => by simp [readBool, ← hx]⟩
  | (b + 2) :: r => simp [readBool] at h

theorem stable_readOptionU16 : Stable readOptionU16 := by
  intro l x rest h
  match l with
  | [] => simp [readOptionU16] at h
  | 0 :: r =>
    simp only [readOptionU16, Option.some.injEq, Prod.mk.injEq] at h
    obtain ⟨hx, hrest⟩ := h
    exact ⟨[0], by simp [hrest], fun r' => by simp [readOptionU16, ← hx]⟩
  | 1 :: r =>
    cases h2 : readLE 2 r with
    | none => simp [readOptionU16, h2] at h
    | some p =>
      obtain ⟨v, rest0⟩ := p
      simp only [readOptionU16, h2, Option.some.injEq, Prod.mk.injEq] at h
      obtain ⟨hx, hrest⟩ := h
      obtain ⟨c0, hdec, hrep⟩ := stable_readLE 2 r v rest0 h2
      refine ⟨1 :: c0, by simp [hdec, hrest], fun r' => ?_⟩
      simp only [List.cons_append, readOptionU16, hrep r', ← hx]
  | (b + 2) :: r => simp [readOptionU16] at h

theorem stable_readController : Stable readController := by
  intro l x rest h
  rw [readController] at h
  cases h4 : readLE 4 l with
  | none => simp [h4] at h
  | some p =>
    obtain ⟨t, r⟩ := p
    obtain ⟨c1, hd1, hr1⟩ := stable_readLE 4 l t r h4
    match t with
    | 0 =>
      simp only [h4, Option.some.injEq, Prod.mk.injEq] at h
      obtain ⟨hx, hrest⟩ := h
      refine ⟨c1, by rw [hd1, hrest], fun r' => ?_⟩
      rw [readController, hr1 r']
      simp [← hx]
    | 1 =>
      cases h2 : readLE 2 r with
      | none => simp [h4, h2] at h
      | some q =>
        obtain ⟨v, rest0⟩ := q
        simp only [h4, h2, Option.some.injEq, Prod.mk.injEq] at h
        obtain ⟨hx, hrest⟩ := h
        obtain ⟨c2, hd2, hr2⟩ := stable_readLE 2 r v rest0 h2
        refine ⟨c1 ++ c2, by rw [hd1, hd2, hrest, List.append_assoc], fun r' => ?_⟩
        rw [List.append_assoc, readController, hr1 (c2 ++ r')]
        simp [hr2 r', ← hx]
    | (t + 2) => simp [h4] at h

theorem stable_readProtocol : Stable readProtocol := by
  intro l x rest h
  rw [readProtocol] at h
  cases h4 : readLE 4 l with
  | none => simp [h4] at h
  | some p =>
    obtain ⟨t, r⟩ := p
    obtain ⟨c1, hd1, hr1⟩ := stable_readLE 4 l t r h4
    match t with
    | 0 =>
      cases hs : readString r with
      | none => simp [h4, hs] at h
      | some q =>
        obtain ⟨mid, rest0⟩ := q
        simp only [h4, hs, Option.some.injEq, Prod.mk.injEq] at h
        obtain ⟨hx, hrest⟩ := h
        obtain ⟨c2, hd2, hr2⟩ := stable_readString r mid rest0 hs
        refine ⟨c1 ++ c2, by rw [hd1, hd2, hrest, List.append_assoc], fun r' => ?_⟩
        rw [List.append_assoc, readProtocol, hr1 (c2 ++ r')]
        simp [hr2 r', ← hx]
    | 1 =>
      cases h2 : readLE 2 r with
      | none => simp [h4, h2] at h
      | some q =>
        obtain ⟨v, rest0⟩ := q
        simp only [h4, h2, Option.some.injEq, Prod.mk.injEq] at h
        obtain ⟨hx, hrest⟩ := h
        obtain ⟨c2, hd2, hr2⟩ := stable_readLE 2 r v rest0 h2
        refine ⟨c1 ++ c2, by rw [hd1, hd2, hrest, List.append_assoc], fun r' => ?_⟩
        rw [List.append_assoc, readProtocol, hr1 (c2 ++ r')]
        simp [hr2 r', ← hx]
    | (t + 2) => simp [h4] at h

theorem stable_readClient : Stable readClient := by
  intro l x rest h
  rw [readClient] at h
  cases h4 : readLE 4 l with
  | none => simp [h4] at h
  | some p =>
    obtain ⟨t, r⟩ := p
    obtain ⟨c1, hd1, hr1⟩ := stable_readLE 4 l t r h4
    match t with
    | 0 =>
      cases h2 : readLE 4 r with
      | none => simp [h4, h2] at h
      | some q =>
        obtain ⟨bits, rest0⟩ := q
        simp only [h4, h2, Option.some.injEq, Prod.mk.injEq] at h
        obtain ⟨hx, hrest⟩ := h
        obtain ⟨c2, hd2, hr2⟩ := stable_readLE 4 r bits rest0 h2
        refine ⟨c1 ++ c2, by rw [hd1, hd2, hrest, List.append_assoc], fun r' => ?_⟩
        rw [List.append_assoc, readClient, hr1 (c2 ++ r')]
        simp [hr2 r', ← hx]
    | 1 =>
      cases hs : readString r with
      | none => simp [h4, hs] at h
      | some q =>
        obtain ⟨name, rest0⟩ := q
        simp only [h4, hs, Option.some.injEq, Prod.mk.injEq] at h
        obtain ⟨hx, hrest⟩ := h
        obtain ⟨c2, hd2, hr2⟩ := stable_readString r name rest0 hs
        refine ⟨c1 ++ c2, by rw [hd1, hd2, hrest, List.append_assoc], fun r' => ?_⟩
        rw [List.append_assoc, readClient, hr1 (c2 ++ r')]
        simp [hr2 r', ← hx]
    | 2 =>
      simp only [h4, Option.some.injEq, Prod.mk.injEq] at h
      obtain ⟨hx, hrest⟩ := h
      refine ⟨c1, by rw [hd1, hrest], fun r' => ?_⟩
      rw [readClient, hr1 r']
      simp [← hx]
    | (t + 3) => simp [h4] at h

theorem stable_readPayload : Stable readPayload := by
  intro l x rest h
  rw [readPayload] at h
  cases h4 : readLE 4 l with
  | none => simp [h4] at h
  | some p =>
    obtain ⟨t, r⟩ := p
    obtain ⟨c1, hd1, hr1⟩ := stable_readLE 4 l t r h4
    match t with
    | 0 =>
      cases hm : readController r with
      | none => simp [h4, hm] at h
      | some q =>
        obtain ⟨m, rest0⟩ := q
        simp only [h4, hm, Option.some.injEq, Prod.mk.injEq] at h
        obtain ⟨hx, hrest⟩ := h
        obtain ⟨c2, hd2, hr2⟩ := stable_readController r m rest0 hm
        refine ⟨c1 ++ c2, by rw [hd1, hd2, hrest, List.append_assoc], fun r' => ?_⟩
        rw [List.append_assoc, readPayload, hr1 (c2 ++ r')]
        simp [hr2 r', ← hx]
    | 1 =>
      cases hm : readProtocol r with
      | none => simp [h4, hm] at h
      | some q =>
        obtain ⟨m, rest0⟩ := q
        simp only [h4, hm, Option.some.injEq, Prod.mk.injEq] at h
        obtain ⟨hx, hrest⟩ := h
        obtain ⟨c2, hd2, hr2⟩ := stable_readProtocol r m rest0 hm
        refine ⟨c1 ++ c2, by rw [hd1, hd2, hrest, List.append_assoc], fun r' => ?_⟩
        rw [List.append_assoc, readPayload, hr1 (c2 ++ r')]
        simp [hr2 r', ← hx]
    | 2 =>
      cases hm : readClient r with
      | none => simp [h4, hm] at h
      | some q =>
        obtain ⟨m, rest0⟩ := q
        simp only [h4, hm, Option.some.injEq, Prod.mk.injEq] at h
        obtain ⟨hx, hrest⟩ := h
        obtain ⟨c2, hd2, hr2⟩ := stable_readClient r m rest0 hm
        refine ⟨c1 ++ c2, by rw [hd1, hd2, hrest, List.append_assoc], fun r' => ?_⟩
        rw [List.append_assoc, readPayload, hr1 (c2 ++ r')]
        simp [hr2 r', ← hx]
    | 3 =>
      simp only [h4, Option.some.injEq, Prod.mk.injEq] at h
      obtain ⟨hx, hrest⟩ := h
      refine ⟨c1, by rw [hd1, hrest], fun r' => ?_⟩
      rw [readPayload, hr1 r']
      simp [← hx]
    | (t + 4) => simp [h4] at h

theorem stable_readHeader : Stable readHeader := by
  intro l x rest h
  rw [readHeader] at h
  cases hs1 : readString l with
  | none => simp [hs1] at h
  | some p1 =>
  obtain ⟨ts, l1⟩ := p1
  cases hs2 : readLE 1 l1 with
  | none => simp [hs1, hs2] at h
  | some p2 =>
  obtain ⟨lt, l2⟩ := p2
  cases hs3 : readString l2 with
  | none => simp [hs1, hs2, hs3] at h
  | some p3 =>
  obtain ⟨mid, l3⟩ := p3
  cases hs4 : readLE 2 l3 with
  | none => simp [hs1, hs2, hs3, hs4] at h
  | some p4 =>
  obtain ⟨sid, l4⟩ := p4
  cases hs5 : readOptionU16 l4 with
  | none => simp [hs1, hs2, hs3, hs4, hs5] at h
  | some p5 =>
  obtain ⟨tid, l5⟩ := p5
  cases hs6 : readBool l5 with
  | none => simp [hs1, hs2, hs3, hs4, hs5, hs6] at h
  | some p6 =>
  obtain ⟨ack, l6⟩ := p6
  cases hs7 : readLE 2 l6 with
  | none => simp [hs1, hs2, hs3, hs4, hs5, hs6, hs7] at h
  | some p7 =>
  obtain ⟨tick, l7⟩ := p7
  cases hs8 : readLE 1 l7 with
  | none => simp [hs1, hs2, hs3, hs4, hs5, hs6, hs7, hs8] at h
  | some p8 =>
  obtain ⟨uni, l8⟩ := p8
  cases hs9 : readBytes 4 l8 with
  | none => simp [hs1, hs2, hs3, hs4, hs5, hs6, hs7, hs8, hs9] at h
  | some p9 =>
  obtain ⟨s, l9⟩ := p9
  obtain ⟨c1, hd1, hr1⟩ := stable_readString l ts l1 hs1
  obtain ⟨c2, hd2, hr2⟩ := stable_readLE 1 l1 lt l2 hs2
  obtain ⟨c3, hd3, hr3⟩ := stable_readString l2 mid l3 hs3
  obtain ⟨c4, hd4, hr4⟩ := stable_readLE 2 l3 sid l4 hs4
  obtain ⟨c5, hd5, hr5⟩ := stable_readOptionU16 l4 tid l5 hs5
  obtain ⟨c6, hd6, hr6⟩ := stable_readBool l5 ack l6 hs6
  obtain ⟨c7, hd7, hr7⟩ := stable_readLE 2 l6 tick l7 hs7
  obtain ⟨c8, hd8, hr8⟩ := stable_readLE 1 l7 uni l8 hs8
  obtain ⟨c9, hd9, hr9⟩ := stable_readBytes 4 l8 s l9 hs9
  match s with
  | [] => simp [hs1, hs2, hs3, hs4, hs5, hs6, hs7, hs8, hs9] at h
  | [_] => simp [hs1, hs2, hs3, hs4, hs5, hs6, hs7, hs8, hs9] at h
  | [_, _] => simp [hs1, hs2, hs3, hs4, hs5, hs6, hs7, hs8, hs9] at h
  | [_, _, _] => simp [hs1, hs2, hs3, hs4, hs5, hs6, hs7, hs8, hs9] at h
  | _ :: _ :: _ :: _ :: _ :: _ => simp [hs1, hs2, hs3, hs4, hs5, hs6, hs7, hs8, hs9] at h
  | [r0, r1, r2, r3] =>
    simp only [hs1, hs2, hs3, hs4, hs5, hs6, hs7, hs8, hs9, Option.some.injEq,
      Prod.mk.injEq] at h
    obtain ⟨hx, hrest⟩ := h
    refine ⟨c1 ++ (c2 ++ (c3 ++ (c4 ++ (c5 ++ (c6 ++ (c7 ++ (c8 ++ c9))))))), ?_,
      fun r' => ?_⟩
    · rw [hd1, hd2, hd3, hd4, hd5, hd6, hd7, hd8, hd9, hrest]
      simp [List.append_assoc]
    · simp only [List.append_assoc, readHeader, List.append_eq, hr1, hr2, hr3, hr4, hr5,
        hr6, hr7, hr8, hr9, ← hx]

theorem stable_parseFrame : Stable parseFrame := by
  intro l x rest h
  rw [parseFrame] at h
  cases hs1 : readHeader l with
  | none => simp [hs1] at h
  | some p1 =>
    obtain ⟨hd, l1⟩ := p1
    cases hs2 : readPayload l1 with
    | none => simp [hs1, hs2] at h
    | some p2 =>
      obtain ⟨pl, l2⟩ := p2
      simp only [hs1, hs2, Option.some.injEq, Prod.mk.injEq] at h
      obtain ⟨hx, hrest⟩ := h
      obtain ⟨c1, hd1, hr1⟩ := stable_readHeader l hd l1 hs1
      obtain ⟨c2, hd2, hr2⟩ := stable_readPayload l1 pl l2 hs2
      refine ⟨c1 ++ c2, by rw [hd1, hd2, hrest, List.append_assoc], fun r' => ?_⟩
      rw [List.append_assoc, parseFrame, hr1 (c2 ++ r')]
      simp [hr2 r', ← hx]

/-- From completeness and stability: no strict prefix of a serialized value
is accepted by its reader. -/
theorem read_trunc_of_stable {α : Type} (read : Bytes → Option (α × Bytes))
    (hst : Stable read) (sx : Bytes) (x : α)
    (hc : ∀ r, read (sx ++ r) = some (x, r)) (k : Nat) (hk : k < sx.length) :
    read (sx.take k) = none := by
  cases hr : read (sx.take k) with
  | none => rfl
  | some p =>
    obtain ⟨y, rest⟩ := p
    obtain ⟨c, hdec, hrep⟩ := hst _ y rest hr
    have h1 : sx = c ++ (rest ++ sx.drop k) := by
      conv_lhs => rw [← List.take_append_drop k sx]
      rw [hdec, List.append_assoc]
    have h2 : read sx = some (y, rest ++ sx.drop k) := by
      conv_lhs => rw [h1]
      exact hrep _
    have h3 : read sx = some (x, []) := by
      have hc0 := hc []
      rwa [List.append_nil] at hc0
    rw [h2] at h3
    simp only [Option.some.injEq, Prod.mk.injEq] at h3
    obtain ⟨hxy, hre⟩ := h3
    have hdk : sx.drop k = [] := (List.append_eq_nil.mp hre).2
    have hlen := List.drop_eq_nil_iff.mp hdk
    omega

/-- Truncating a well-formed encoded buffer inside the body segment, down to
any length of at least 12, makes decode fail with `SerializeError`: the body
slice the decoder sees is a strict prefix of the serialization, and no
strict prefix parses. -/
theorem tryFrom_truncated (f : Frame) (hw : f.WF) (L : Nat)
    (h12 : 12 ≤ L) (hL : L < 8 + (serFrame f).length) :
    Frame.tryFrom ((Frame.toBytes f).take L) =
      DecodeOutcome.err FrameError.SerializeError := by
  have hmlen : magicBytes.length = 8 := rfl
  have hlenv : (Frame.toBytes f).length = 8 + ((serFrame f).length + 4) := by
    simp [Frame.toBytes, RangingBytes.toList, magicBytes]
    omega
  have hdecomp : (Frame.toBytes f).take L =
      magicBytes ++ ((serFrame f ++ f.header.ranging_bytes.toList).take (L - 8)) := by
    rw [Frame.toBytes, List.take_append_eq_append_take,
      List.take_of_length_le (by rw [hmlen]; omega), hmlen]
  have hlent : ((Frame.toBytes f).take L).length = L := by
    rw [List.length_take]
    omega
  have htake8 : ((Frame.toBytes f).take L).take 8 = magicBytes := by
    rw [hdecomp]
    exact List.take_left' hmlen
  have hdrop8 : ((Frame.toBytes f).take L).drop 8 =
      (serFrame f ++ f.header.ranging_bytes.toList).take (L - 8) := by
    rw [hdecomp]
    exact List.drop_left' hmlen
  have hbody :
      (((Frame.toBytes f).take L).drop 8).take (((Frame.toBytes f).take L).length - 12) =
        (serFrame f).take (L - 12) := by
    rw [hdrop8, hlent, List.take_take, min_eq_left (by omega),
      List.take_append_of_le_length (by omega)]
  have hparse : parseFrame ((serFrame f).take (L - 12)) = none :=
    read_trunc_of_stable parseFrame stable_parseFrame (serFrame f) f
      (fun r => parseFrame_ser f r hw) (L - 12) (by omega)
  rw [Frame.tryFrom, if_neg (by omega), htake8, if_neg (by decide), if_pos rfl,
    if_neg (by omega), hbody, hparse]

/-- The last four bytes of a buffer of length at least 4, as the decode
routine indexes them. -/
theorem drop_last_four (l : Bytes) (h4 : 4 ≤ l.length) :
    l.drop (l.length - 4) =
      [l.getD (l.length - 4) 0, l.getD (l.length - 3) 0,
        l.getD (l.length - 2) 0, l.getD (l.length - 1) 0] := by
  have hlen : (l.drop (l.length - 4)).length = 4 := by
    rw [List.length_drop]
    omega
  have hget : ∀ i, (l.drop (l.length - 4)).getD i 0 = l.getD (l.length - 4 + i) 0 := by
    intro i
    rw [List.getD_eq_getElem?_getD, List.getElem?_drop, ← List.getD_eq_getElem?_getD]
  rcases hd : l.drop (l.length - 4) with _ | ⟨a, _ | ⟨b, _ | ⟨c, _ | ⟨e, tail⟩⟩⟩⟩ <;>
    rw [hd] at hlen <;> simp only [List.length_nil, List.length_cons] at hlen
  · omega
  · omega
  · omega
  · omega
  · have htail : tail = [] := by
      have : tail.length = 0 := by omega
      exact List.eq_nil_of_length_eq_zero this
    subst htail
    have g0 := hget 0
    have g1 := hget 1
    have g2 := hget 2
    have g3 := hget 3
    rw [hd] at g0 g1 g2 g3
    simp only [List.getD_cons_zero, List.getD_cons_succ] at g0 g1 g2 g3
    have e1 : l.length - 4 + 1 = l.length - 3 := by omega
    have e2 : l.length - 4 + 2 = l.length - 2 := by omega
    have e3 : l.length - 4 + 3 = l.length - 1 := by omega
    rw [Nat.add_zero] at g0
    rw [e1] at g1
    rw [e2] at g2
    rw [e3] at g3
    rw [← g0, ← g1, ← g2, ← g3]

/-! ## Concrete frames for the closed witnesses -/

/-- A small concrete frame: one-byte timestamp and message id, default
header fields, empty payload. Its encoding is 46 bytes; the two `sender_id`
bytes sit at buffer offsets 27 and 28. -/
def sampleFrame : Frame where
  header := ⟨[65], 2, [66], 65535, none, false, 0, 0, ⟨0, 0, 0, 0⟩⟩
  payload := FramePayload.Empty

/-- A concrete frame exercising every header field and a payload message,
with nonzero ranging bytes. -/
def sampleFrameRich : Frame where
  header := ⟨[65, 66], 7, [48, 49, 50, 51, 52, 53, 54, 55, 56, 57], 7, some 0, true,
    100, 1, ⟨9, 9, 9, 9⟩⟩
  payload := FramePayload.ProtocolMessage (ProtocolMessage.Acknowledged [65, 66, 67])

/-- A buffer whose body serializes a frame with ranging bytes `9,9,9,9` but
whose trailer was stamped to `1,2,3,4` after serialization. -/
def stampedBuffer : Bytes :=
  magicBytes ++ (serFrame sampleFrameRich ++ [1, 2, 3, 4])

/-! ## The claims -/

/-- Claim C1 — round trip with trailer override: for every well-formed
frame `f`, decoding the buffer produced by encoding `f` succeeds and yields
`f` itself: every header field and the payload are unchanged, and in
particular the ranging bytes are the four bytes that were in
`f.header.ranging_bytes` at encode time, which encode copied to the trailer
and decode re-read from the trailer. -/
theorem frame_roundtrip (f : Frame) (hw : f.WF) :
    Frame.tryFrom (Frame.toBytes f) = DecodeOutcome.ok f :=
  tryFrom_toBytes f hw

/-- Witness for C1 at a concrete frame exercising every header field. -/
theorem frame_roundtrip_witness :
    sampleFrameRich.WF ∧
      Frame.tryFrom (Frame.toBytes sampleFrameRich) = DecodeOutcome.ok sampleFrameRich :=
  ⟨by decide, frame_roundtrip sampleFrameRich (by decide)⟩

/-- Claim C2 — magic validation, as the code actually behaves: on a 12-byte
buffer whose first 8 bytes are `0xFF` (not the magic marker, and not valid
UTF-8) the decode routine panics in `from_utf8(..).unwrap()` instead of
returning `NoMagicString`; and in the non-panicking case (a valid-UTF-8
non-magic prefix) the error carries only the first seven bytes of the
prefix, `vec[0 .. 7]`. -/
theorem magic_validation_code_paths :
    Frame.tryFrom [255, 255, 255, 255, 255, 255, 255, 255, 0, 0, 0, 0] =
        DecodeOutcome.panicked ∧
      Frame.tryFrom [65, 65, 65, 65, 65, 65, 65, 65, 0, 0, 0, 0] =
        DecodeOutcome.err (FrameError.NoMagicString [65, 65, 65, 65, 65, 65, 65]) := by
  decide

/-- Claim C3 — minimum length, as the code actually behaves: buffers
shorter than 12 bytes make the decode routine panic (out-of-range slices
`vec[0 .. 8]` and `vec[8 .. len - 4]`) rather than return a `FrameError`:
the empty buffer, a 1-byte buffer, and a 9-byte buffer that starts with the
magic marker all panic. -/
theorem short_buffer_code_paths :
    Frame.tryFrom [] = DecodeOutcome.panicked ∧
      Frame.tryFrom [76] = DecodeOutcome.panicked ∧
      Frame.tryFrom (magicBytes ++ [0]) = DecodeOutcome.panicked := by
  decide

/-- Claim C4 — the trailer is authoritative on decode: for every buffer of
length at least 12 whose first 8 bytes are the magic marker and whose body
segment deserializes to a frame `f`, decode succeeds with a frame whose
ranging bytes are the buffer's last four bytes — regardless of the ranging
value serialized inside the body — and whose payload and remaining header
fields are those of `f`. -/
theorem trailer_overrides_body (vec : Bytes) (f : Frame) (rest : Bytes)
    (hlen : 12 ≤ vec.length) (hm : vec.take 8 = magicBytes)
    (hp : parseFrame ((vec.drop 8).take (vec.length - 12)) = some (f, rest)) :
    ∃ g : Frame, Frame.tryFrom vec = DecodeOutcome.ok g ∧
      g.header.ranging_bytes.toList = vec.drop (vec.length - 4) ∧
      g.payload = f.payload ∧
      g.header = { f.header with ranging_bytes := g.header.ranging_bytes } := by
  refine ⟨{ f with header := { f.header with ranging_bytes :=
      ⟨vec.getD (vec.length - 4) 0, vec.getD (vec.length - 3) 0,
        vec.getD (vec.length - 2) 0, vec.getD (vec.length - 1) 0⟩ } }, ?_, ?_, rfl, rfl⟩
  · rw [Frame.tryFrom, if_neg (by omega), hm, if_neg (by decide), if_pos rfl,
      if_neg (by omega), hp]
  · exact (drop_last_four vec (by omega)).symm

/-- Witness for C4: a buffer whose body carries ranging bytes `9,9,9,9` but
whose trailer was stamped to `1,2,3,4` decodes with ranging `1,2,3,4`. -/
theorem trailer_overrides_body_witness :
    ∃ g : Frame, Frame.tryFrom stampedBuffer = DecodeOutcome.ok g ∧
      g.header.ranging_bytes.toList = stampedBuffer.drop (stampedBuffer.length - 4) ∧
      g.payload = sampleFrameRich.payload ∧
      g.header = { sampleFrameRich.header with ranging_bytes := g.header.ranging_bytes } :=
  trailer_overrides_body stampedBuffer sampleFrameRich [] (by decide) (by decide) (by decide)

/-- Claim C5 — the payload union as declared: every value of the declared
`FramePayload` is one of exactly the four alternatives `ControllerMessage`,
`ProtocolMessage`, `ClientMessage`, `Empty` (the `InternalMessage`
alternative is commented out in `src/frame/payload/mod.rs`), and each of
the three declarable payload builders overwrites the payload to its tagged
alternative, the last call winning. -/
theorem payload_union_as_declared :
    (∀ p : FramePayload,
        (∃ m, p = FramePayload.ControllerMessage m) ∨
          (∃ m, p = FramePayload.ProtocolMessage m) ∨
          (∃ m, p = FramePayload.ClientMessage m) ∨ p = FramePayload.Empty) ∧
      (∀ (f : Frame) (m : ControllerMessage),
          (f.message m).payload = FramePayload.ControllerMessage m) ∧
      (∀ (f : Frame) (m : ProtocolMessage),
          (f.protocol_message m).payload = FramePayload.ProtocolMessage m) ∧
      (∀ (f : Frame) (m : ClientMessage),
          (f.client_message m).payload = FramePayload.ClientMessage m) ∧
      (∀ (f : Frame) (m : ProtocolMessage) (c : ClientMessage),
          ((f.protocol_message m).client_message c).payload =
            FramePayload.ClientMessage c) := by
  refine ⟨fun p => ?_, fun f m => rfl, fun f m => rfl, fun f m => rfl,
    fun f m c => rfl⟩
  cases p with
  | ControllerMessage m => exact Or.inl ⟨m, rfl⟩
  | ProtocolMessage m => exact Or.inr (Or.inl ⟨m, rfl⟩)
  | ClientMessage m => exact Or.inr (Or.inr (Or.inl ⟨m, rfl⟩))
  | Empty => exact Or.inr (Or.inr (Or.inr rfl))

/-- Counterexample to claim C6 as stated: flipping the byte at offset 27
(inside the body segment, the low byte of `sender_id`) of the well-formed
encoding of `sampleFrame` does NOT yield `SerializeError` — decode succeeds
and returns a frame whose `sender_id` is 65280 instead of 65535; and
truncating the same buffer inside the body segment down to 9 bytes does not
yield `SerializeError` either — it panics on the out-of-range body slice. -/
theorem body_flip_counterexample :
    sampleFrame.WF ∧
      (8 ≤ 27 ∧ 27 < 8 + (serFrame sampleFrame).length) ∧
      (Frame.toBytes sampleFrame).set 27 0 ≠ Frame.toBytes sampleFrame ∧
      ((Frame.toBytes sampleFrame).set 27 0).length = (Frame.toBytes sampleFrame).length ∧
      Frame.tryFrom ((Frame.toBytes sampleFrame).set 27 0) =
        DecodeOutcome.ok
          { sampleFrame with header := { sampleFrame.header with sender_id := 65280 } } ∧
      { sampleFrame with header := { sampleFrame.header with sender_id := 65280 } } ≠
        sampleFrame ∧
      Frame.tryFrom ((Frame.toBytes sampleFrame).take 9) = DecodeOutcome.panicked := by
  decide

/-- Claim C6 as amended — truncation inside the body segment down to any
length of at least 12 bytes yields `SerializeError` (byte flips inside the
body are not reliably detected: they may decode to a different frame, as
the counterexample shows, and truncation below 12 bytes panics). -/
theorem body_truncation_serialize_error (f : Frame) (hw : f.WF) (L : Nat)
    (h12 : 12 ≤ L) (hL : L < 8 + (serFrame f).length) :
    Frame.tryFrom ((Frame.toBytes f).take L) =
      DecodeOutcome.err FrameError.SerializeError :=
  tryFrom_truncated f hw L h12 hL

/-- Witness for the amended C6 at a concrete frame and truncation length. -/
theorem body_truncation_serialize_error_witness :
    Frame.tryFrom ((Frame.toBytes sampleFrame).take 20) =
      DecodeOutcome.err FrameError.SerializeError :=
  body_truncation_serialize_error sampleFrame (by decide) 20 (by decide) (by decide)

/-- Claim C7 — builder composition of `join_request`: for every tick `t`
(and whatever timestamp and message id the fresh header draws),
`Frame.join_request` yields the frame whose payload is
`ControllerMessage.JoinRequest` and whose header is the freshly constructed
header with `requires_acknowledgement = true`, `target_id = some 0` and
`current_tick = t`, all other fields untouched. -/
theorem join_request_composition (ts mid : Bytes) (t : Nat) :
    Frame.join_request ts mid t =
      { header := { FrameHeader.new ts mid with
            requires_acknowledgement := true, target_id := some 0, current_tick := t },
        payload := FramePayload.ControllerMessage ControllerMessage.JoinRequest } := rfl

/-- Claim C8 — construction defaults: a freshly constructed header carries
the given timestamp and freshly generated message id, `lifetime = 2`,
`sender_id = 65535`, no target, no acknowledgement request, tick 0,
universe 0 and zero ranging bytes; when the generated id is 10 characters
long (the `nanoid!(10)` contract) so is the stored `message_id`; and
`Frame.new` pairs such a header with the `Empty` payload. Construction is a
total function with no failure modes. -/
theorem header_construction_defaults (ts mid : Bytes) (hmid : mid.length = 10) :
    FrameHeader.new ts mid =
        { timestamp := ts, lifetime := 2, message_id := mid, sender_id := 65535,
          target_id := none, requires_acknowledgement := false, current_tick := 0,
          «universe» := 0, ranging_bytes := ⟨0, 0, 0, 0⟩ } ∧
      (FrameHeader.new ts mid).message_id.length = 10 ∧
      Frame.new ts mid =
        { header := FrameHeader.new ts mid, payload := FramePayload.Empty } :=
  ⟨rfl, hmid, rfl⟩

/-- Witness for C8 at a concrete timestamp and 10-byte message id. -/
theorem header_construction_defaults_witness :
    FrameHeader.new [] [48, 49, 50, 51, 52, 53, 54, 55, 56, 57] =
        { timestamp := [], lifetime := 2,
          message_id := [48, 49, 50, 51, 52, 53, 54, 55, 56, 57], sender_id := 65535,
          target_id := none, requires_acknowledgement := false, current_tick := 0,
          «universe» := 0, ranging_bytes := ⟨0, 0, 0, 0⟩ } ∧
      (FrameHeader.new [] [48, 49, 50, 51, 52, 53, 54, 55, 56, 57]).message_id.length = 10 ∧
      Frame.new [] [48, 49, 50, 51, 52, 53, 54, 55, 56, 57] =
        { header := FrameHeader.new [] [48, 49, 50, 51, 52, 53, 54, 55, 56, 57],
          payload := FramePayload.Empty } :=
  header_construction_defaults [] [48, 49, 50, 51, 52, 53, 54, 55, 56, 57] (by decide)

/-- Claim C9 — wire layout: for every frame, the encoded buffer is the
8-byte magic marker, then the serialized frame body, then a verbatim copy
of the header's ranging bytes as the final four bytes, and its total length
is at least 12. -/
theorem encode_wire_layout (f : Frame) :
    (Frame.toBytes f).take 8 = magicBytes ∧
      ((Frame.toBytes f).drop 8).take (serFrame f).length = serFrame f ∧
      (Frame.toBytes f).drop ((Frame.toBytes f).length - 4) =
        f.header.ranging_bytes.toList ∧
      12 ≤ (Frame.toBytes f).length := by
  have hmlen : magicBytes.length = 8 := rfl
  have hlenv : (Frame.toBytes f).length = 8 + ((serFrame f).length + 4) := by
    simp [Frame.toBytes, RangingBytes.toList, magicBytes]
    omega
  refine ⟨?_, ?_, ?_, by omega⟩
  · rw [Frame.toBytes]
    exact List.take_left' hmlen
  · rw [Frame.toBytes, List.drop_left' hmlen]
    exact List.take_left (serFrame f) f.header.ranging_bytes.toList
  · have hform : Frame.toBytes f =
        (magicBytes ++ serFrame f) ++ f.header.ranging_bytes.toList := by
      rw [Frame.toBytes, List.append_assoc]
    have hplen : (magicBytes ++ serFrame f).length = (Frame.toBytes f).length - 4 := by
      rw [List.length_append, hmlen]
      omega
    conv_lhs => rw [hform]
    exact List.drop_left' hplen

/-- Claim C10 — encoding is total: the conversion of any frame to bytes,
whatever the header contents and payload, is a total function producing
the magic marker, the body serialization and the 4-byte trailer; there is
no failing path (the model of `bincode::serialize` is a total function on
this data model, so the `unwrap` in the source cannot fire), and the
output length is always exactly 12 bytes plus the body length. -/
theorem encode_total (f : Frame) :
    Frame.toBytes f = magicBytes ++ (serFrame f ++ f.header.ranging_bytes.toList) ∧
      (Frame.toBytes f).length = 12 + (serFrame f).length := by
  refine ⟨rfl, ?_⟩
  simp [Frame.toBytes, RangingBytes.toList, magicBytes]
  omega

end Ledswarm
